import Mathlib

/-!
Verification of the sprint scheduling and deadline-classification engine of the
thesis-tracker task board (`src/utils/text.ts`).

Modelling conventions for the shallow embedding:

* A JavaScript `Date` is modelled by its epoch value in milliseconds, an `Int`.
  The local clock is modelled as UTC with no daylight-saving shifts (the spec
  declares timezone-aware scheduling beyond local-clock semantics a non-goal),
  so `setHours(0,0,0,0)` is flooring to a multiple of `DAY_IN_MS` and
  `getDay()` is day-number arithmetic; the epoch (1970-01-01) fell on a
  Thursday, weekday 4 in JavaScript's 0 = Sunday convention.  On integers,
  Lean's `/` and `%` (Euclidean division, positive divisors here) coincide
  with the floor-division semantics of the JavaScript date computations.
* ISO-8601 timestamp strings (`Date.prototype.toISOString`) are represented by
  the millisecond value they denote.  `toISOString` is injective and the code
  only ever writes such canonical strings and compares them for equality, so
  this identification is faithful for everything stated below.
* A JavaScript `number` held in a task's `sprintIndex` field is either `NaN`
  or a finite value, modelled by `JsNumber` over `ℚ`; `Math.floor` is
  `Rat.floor` and `Math.max` is `max`.
* The `label` field of a deadline descriptor is an `Intl.DateTimeFormat`
  presentation string (locale data dependent) and is not modelled; the
  descriptor keeps the `status` and `targetDate` fields, which is all the
  stated properties are about.
-/

namespace ThesisTracker

def DAY_IN_MS : Int := 24 * 60 * 60 * 1000

def WEEK_IN_MS : Int := DAY_IN_MS * 7

/-- Record `SprintScheduleEntry` from the source: a sprint window (`start`, `end`,
`overflowEnd`, all `Date`s, here epoch milliseconds) together with its 1-based
`index` in the schedule. -/
structure SprintScheduleEntry where
  index : Int
  start : Int
  «end» : Int
  overflowEnd : Int
deriving DecidableEq, Repr, Inhabited

/-- Type `ColumnId` from `types.ts`: `"todo" | "inprogress" | "done"`. -/
inductive ColumnId where
  | todo
  | inprogress
  | done
deriving DecidableEq, Repr, Inhabited

/-- Type `TaskType` from `types.ts`: `"task-phase" | "task-micro" | "task-sprint"`. -/
inductive TaskType where
  | taskPhase
  | taskMicro
  | taskSprint
deriving DecidableEq, Repr, Inhabited

/-- Record `Subtask` from `types.ts`. -/
structure Subtask where
  id : String
  title : String
  done : Bool
deriving DecidableEq, Repr, Inhabited

/-- A JavaScript `number` as stored in a task's `sprintIndex` field: either
`NaN` or a finite value (modelled as a rational). -/
inductive JsNumber where
  | nan
  | num (val : ℚ)
deriving DecidableEq, Repr

/-- Record `Task` from `types.ts`.  Optional fields (`sprintIndex?`, `dueDate?`,
`overflowDate?`, `subtasks?`) are `Option`s; date strings are represented by
their millisecond value (see the header comment).  Field defaults let the
concrete test tasks below state only the fields that matter. -/
structure Task where
  id : String := ""
  title : String := ""
  desc : String := ""
  type : TaskType := TaskType.taskSprint
  tags : List String := []
  column : ColumnId := ColumnId.todo
  sprintIndex : Option JsNumber := none
  dueDate : Option Int := none
  overflowDate : Option Int := none
  subtasks : Option (List Subtask) := none
deriving DecidableEq, Repr

/-- Model of `Date.setHours(0,0,0,0)` under the UTC-as-local convention: floor to the
most recent midnight. -/
def startOfDay (t : Int) : Int := DAY_IN_MS * (t / DAY_IN_MS)

/-- Model of `Date.setHours(23,59,59,999)`: the last millisecond of the day of `t`. -/
def setEndOfDay (t : Int) : Int := startOfDay t + (DAY_IN_MS - 1)

/-- Model of `Date.prototype.getDay`: weekday with 0 = Sunday; the epoch was a
Thursday (weekday 4). -/
def getDay (t : Int) : Int := (t / DAY_IN_MS + 4) % 7

/-- Function `startOfCurrentSprint` from the source:

```
const start = new Date(referenceDate);
start.setHours(0, 0, 0, 0);
const day = start.getDay();
const distanceFromMonday = (day + 6) % 7;
start.setDate(start.getDate() - distanceFromMonday);
```

(`setDate(getDate() - d)` shifts by whole days, `d * DAY_IN_MS` on a
DST-free clock). -/
def startOfCurrentSprint (referenceDate : Int) : Int :=
  let start := startOfDay referenceDate
  let day := getDay start
  let distanceFromMonday := (day + 6) % 7
  start - distanceFromMonday * DAY_IN_MS

/-- Function `buildSprintSchedule` from the source.  `Array.from \x7b length: n \x7d`
produces `max n 0` slots (a negative or zero length yields the empty array),
which `Int.toNat` captures.  Each entry:

```
const start = new Date(firstStart.getTime() + idx * WEEK_IN_MS);
const end = new Date(start.getTime() + 6 * DAY_IN_MS);
end.setHours(23, 59, 59, 999);
const overflowEnd = new Date(end.getTime() + WEEK_IN_MS);
return { index: idx + 1, start, end, overflowEnd };
```

The source defaults (`referenceDate = new Date()`, `totalSprints = 4`) are
explicit arguments here; default values are supplied at call sites. -/
def buildSprintSchedule (referenceDate : Int) (totalSprints : Int) :
    List SprintScheduleEntry :=
  let firstStart := startOfCurrentSprint referenceDate
  (List.range totalSprints.toNat).map fun (idx : Nat) =>
    let start := firstStart + (idx : Int) * WEEK_IN_MS
    let endTime := setEndOfDay (start + 6 * DAY_IN_MS)
    { index := (idx : Int) + 1, start := start, «end» := endTime,
      overflowEnd := endTime + WEEK_IN_MS }

/-- Function `getActiveSprint` from the source: on an empty schedule, build a fallback
one-entry schedule anchored at the reference date and return its sole entry
(`fallback[0]`, here `headI`); otherwise the first entry whose
`[start, overflowEnd]` range contains the reference date, falling back to the
last entry (`schedule.find(...) ?? schedule[schedule.length - 1]`). -/
def getActiveSprint (schedule : List SprintScheduleEntry) (referenceDate : Int) :
    SprintScheduleEntry :=
  match schedule with
  | [] => (buildSprintSchedule referenceDate 1).headI
  | e :: rest =>
      (((e :: rest).find? fun s =>
          decide (s.start ≤ referenceDate ∧ referenceDate ≤ s.overflowEnd)).getD
        ((e :: rest).getLast (List.cons_ne_nil e rest)))

/-- Case-insensitive match of the literal pattern characters `ps` against the
head of `cs`, returning the remaining characters on success (the regexes in
the source carry the `i` flag; the pattern itself is lower-case). -/
def matchLiteral : List Char → List Char → Option (List Char)
  | [], cs => some cs
  | _ :: _, [] => none
  | p :: ps, c :: cs => if c.toLower = p then matchLiteral ps cs else none

/-- The maximal leading run of ASCII digits, as matched greedily by `\d+`. -/
def takeDigits : List Char → List Char
  | [] => []
  | c :: cs => if c.isDigit then c :: takeDigits cs else []

/-- Attempt to match `tag-week(\d+)` (case-insensitively) starting exactly at
the head of `cs`; returns the captured digit run. -/
def matchTagWeekAt (cs : List Char) : Option (List Char) :=
  match matchLiteral "tag-week".data cs with
  | none => none
  | some rest =>
      match takeDigits rest with
      | [] => none
      | d :: ds => some (d :: ds)

/-- The leftmost match of `/tag-week(\d+)/i` anywhere in the character list —
the search semantics of `RegExp.prototype.test` and `String.prototype.match`:
try each start position from the left, capture the greedy digit run. -/
def findTagWeek : List Char → Option (List Char)
  | [] => none
  | c :: cs =>
      match matchTagWeekAt (c :: cs) with
      | some ds => some ds
      | none => findTagWeek cs

/-- Model of `parseInt(digits, 10)` on a non-empty all-digit string. -/
def parseDigits (ds : List Char) : Nat :=
  ds.foldl (fun acc c => acc * 10 + (c.toNat - 48)) 0

/-- Function `resolveTaskSprintIndex` from the source:

```
if (typeof task.sprintIndex === "number" && !Number.isNaN(task.sprintIndex)) {
  return Math.max(1, Math.floor(task.sprintIndex));
}
const sprintTag = task.tags?.find((tag) => /tag-week\d+/i.test(tag));
if (sprintTag) {
  const match = sprintTag.match(/tag-week(\d+)/i);
  if (match) { return parseInt(match[1], 10); }
}
return 1;
```

A present non-`NaN` `sprintIndex` takes the numeric path; `undefined` or
`NaN` falls through to the tag scan. -/
def resolveTaskSprintIndex (task : Task) : Int :=
  match task.sprintIndex with
  | some (JsNumber.num q) => max 1 q.floor
  | _ =>
      match task.tags.find? (fun tag => (findTagWeek tag.data).isSome) with
      | some sprintTag =>
          match findTagWeek sprintTag.data with
          | some ds => (parseDigits ds : Int)
          | none => 1
      | none => 1

/-- Function `resolveWindowForTask` from the source:
`schedule.find((entry) => entry.index === sprintIndex) ?? schedule[schedule.length - 1]`.
On an empty schedule the source indexes `schedule[-1]` (`undefined`) and the
subsequent date accesses throw; every property below is stated for non-empty
schedules, and the total model returns the `default` entry there. -/
def resolveWindowForTask (task : Task) (schedule : List SprintScheduleEntry) :
    SprintScheduleEntry :=
  ((schedule.find? fun entry => decide (entry.index = resolveTaskSprintIndex task)).getD
    (schedule.getLastD default))

/-- The new task record built for one task inside `ensureSprintDates`:

```
const nextTask: Task = {
  ...task,
  sprintIndex: resolveTaskSprintIndex(task),
  dueDate: sprintWindow.end.toISOString(),
  overflowDate: sprintWindow.overflowEnd.toISOString(),
  subtasks: Array.isArray(task.subtasks) ? task.subtasks : [],
};
```
-/
def normalizeTask (task : Task) (schedule : List SprintScheduleEntry) : Task :=
  let sprintWindow := resolveWindowForTask task schedule
  { task with
    sprintIndex := some (JsNumber.num ((resolveTaskSprintIndex task : Int) : ℚ)),
    dueDate := some sprintWindow.«end»,
    overflowDate := some sprintWindow.overflowEnd,
    subtasks := some (task.subtasks.getD []) }

/-- The per-task `changed` test inside `ensureSprintDates`:

```
if (task.dueDate !== nextTask.dueDate || task.overflowDate !== nextTask.overflowDate ||
    task.subtasks !== nextTask.subtasks || task.sprintIndex !== nextTask.sprintIndex)
```

`dueDate`/`overflowDate` are value comparisons of strings (here their
millisecond values).  `subtasks` is a reference comparison: `nextTask.subtasks`
is the very same array when the input had one and a fresh `[]` otherwise, so
the references differ exactly when the structural values `task.subtasks` and
`some (task.subtasks.getD [])` differ.  `sprintIndex` compares numbers by
value (`NaN !== n` always holds, and `nextTask.sprintIndex` is never `NaN`,
which structural inequality on `JsNumber` reproduces). -/
def taskChanged (task : Task) (schedule : List SprintScheduleEntry) : Bool :=
  let nextTask := normalizeTask task schedule
  decide (task.dueDate ≠ nextTask.dueDate) ||
  decide (task.overflowDate ≠ nextTask.overflowDate) ||
  decide (task.subtasks ≠ nextTask.subtasks) ||
  decide (task.sprintIndex ≠ nextTask.sprintIndex)

/-- Result record of `ensureSprintDates`. -/
structure EnsureSprintDatesResult where
  tasks : List Task
  changed : Bool
deriving DecidableEq, Repr

/-- Function `ensureSprintDates` from the source.  The source maps over the tasks once,
building each `nextTask` and flagging `changed` when any compared field
differs; that single pass is rendered as a `map` producing the new records and
an `any` accumulating the flag over the same per-task computation. -/
def ensureSprintDates (tasks : List Task) (schedule : List SprintScheduleEntry) :
    EnsureSprintDatesResult :=
  { tasks := tasks.map fun task => normalizeTask task schedule,
    changed := tasks.any fun task => taskChanged task schedule }

/-- Type `DeadlineStatus` from the source: `"none" | "ontrack" | "overflow" | "late"`. -/
inductive DeadlineStatus where
  | none
  | ontrack
  | overflow
  | late
deriving DecidableEq, Repr

/-- Record `DeadlineDescriptor` without its locale-dependent `label` string (see the
header comment). -/
structure DeadlineDescriptor where
  status : DeadlineStatus
  targetDate : Option Int
deriving DecidableEq, Repr

/-- Function `describeTaskDeadline` from the source, on the `Pick<Task, "dueDate" |
"overflowDate">` fields and the `now` instant:

```
if (!dueDate) return { status: "none", ... targetDate: null };
if (nowMs <= dueDate.getTime()) return { status: "ontrack", ... targetDate: dueDate };
if (overflowDate && nowMs <= overflowDate.getTime())
  return { status: "overflow", ... targetDate: overflowDate };
return { status: "late", ..., targetDate: overflowDate ?? dueDate };
```
-/
def describeTaskDeadline (dueDate overflowDate : Option Int) (now : Int) :
    DeadlineDescriptor :=
  match dueDate with
  | Option.none => { status := DeadlineStatus.none, targetDate := Option.none }
  | some due =>
      if now ≤ due then
        { status := DeadlineStatus.ontrack, targetDate := some due }
      else
        match overflowDate with
        | some ov =>
            if now ≤ ov then
              { status := DeadlineStatus.overflow, targetDate := some ov }
            else
              { status := DeadlineStatus.late, targetDate := some ov }
        | Option.none => { status := DeadlineStatus.late, targetDate := some due }

/-- A task whose only tag is `"tag-week0"`: the tag scan parses the digit `0`
and `resolveTaskSprintIndex` returns it unclamped. -/
def weekZeroTask : Task := { tags := ["tag-week0"] }

/-- A task whose only tag is `"tag-week3"`. -/
def weekThreeTask : Task := { tags := ["tag-week3"] }

/-- A task whose only tag is `"week3"` — it matches the pattern `week\d+` but
not the source's `/tag-week\d+/i`. -/
def bareWeekTask : Task := { tags := ["week3"] }

/-- A task with a non-matching first tag and a second tag in which
`/tag-week(\d+)/i` matches case-insensitively mid-string. -/
def weekTwelveTask : Task := { tags := ["notes", "xTAG-Week12y"] }

theorem DAY_IN_MS_eq : DAY_IN_MS = 86400000 := by norm_num [DAY_IN_MS]

theorem WEEK_IN_MS_eq : WEEK_IN_MS = 604800000 := by norm_num [WEEK_IN_MS, DAY_IN_MS]

theorem startOfCurrentSprint_mod (D : Int) : startOfCurrentSprint D % DAY_IN_MS = 0 := by
  simp only [startOfCurrentSprint, startOfDay, getDay, DAY_IN_MS_eq]
  omega

theorem startOfCurrentSprint_le (D : Int) : startOfCurrentSprint D ≤ D := by
  simp only [startOfCurrentSprint, startOfDay, getDay, DAY_IN_MS_eq]
  omega

theorem lt_startOfCurrentSprint_add_week (D : Int) :
    D < startOfCurrentSprint D + WEEK_IN_MS := by
  simp only [startOfCurrentSprint, startOfDay, getDay, DAY_IN_MS_eq, WEEK_IN_MS_eq]
  omega

theorem getDay_startOfCurrentSprint (D : Int) : getDay (startOfCurrentSprint D) = 1 := by
  simp only [startOfCurrentSprint, startOfDay, getDay, DAY_IN_MS_eq]
  omega

theorem setEndOfDay_of_day_multiple (t : Int) (h : t % DAY_IN_MS = 0) :
    setEndOfDay t = t + (DAY_IN_MS - 1) := by
  simp only [setEndOfDay, startOfDay, DAY_IN_MS_eq] at *
  omega

theorem buildSprintSchedule_length (D N : Int) :
    (buildSprintSchedule D N).length = N.toNat := by
  unfold buildSprintSchedule
  simp only [List.length_map, List.length_range]

theorem buildSprintSchedule_get (D N : Int) (i : Nat)
    (h : i < (buildSprintSchedule D N).length) :
    (buildSprintSchedule D N).get ⟨i, h⟩ =
      { index := (i : Int) + 1,
        start := startOfCurrentSprint D + (i : Int) * WEEK_IN_MS,
        «end» := startOfCurrentSprint D + (i : Int) * WEEK_IN_MS + 6 * DAY_IN_MS
                   + (DAY_IN_MS - 1),
        overflowEnd := startOfCurrentSprint D + (i : Int) * WEEK_IN_MS + 6 * DAY_IN_MS
                   + (DAY_IN_MS - 1) + WEEK_IN_MS } := by
  have hmod := startOfCurrentSprint_mod D
  have hmod' : (startOfCurrentSprint D + (i : Int) * WEEK_IN_MS + 6 * DAY_IN_MS)
      % DAY_IN_MS = 0 := by
    simp only [DAY_IN_MS_eq, WEEK_IN_MS_eq] at hmod ⊢
    omega
  unfold buildSprintSchedule
  simp only [List.get_eq_getElem, List.getElem_map, List.getElem_range]
  rw [setEndOfDay_of_day_multiple _ hmod']

theorem getActiveSprint_nil (ref : Int) :
    getActiveSprint [] ref = (buildSprintSchedule ref 1).headI := rfl

theorem getActiveSprint_eq_find (schedule : List SprintScheduleEntry) (ref : Int)
    (h : schedule ≠ []) :
    getActiveSprint schedule ref =
      ((schedule.find? fun s => decide (s.start ≤ ref ∧ ref ≤ s.overflowEnd)).getD
        (schedule.getLast h)) := by
  cases schedule with
  | nil => exact absurd rfl h
  | cons a l => rfl

theorem getLastD_eq_getLast {α : Type} [Inhabited α] (l : List α) (h : l ≠ []) :
    l.getLastD default = l.getLast h := by
  cases l with
  | nil => exact absurd rfl h
  | cons a t => simp [List.getLastD_eq_getLast?, List.getLast?_eq_getLast _ h]

theorem find?_first_of_get {α : Type} (p : α → Bool) (l : List α) :
    ∀ (i : Nat) (hi : i < l.length), p (l.get ⟨i, hi⟩) = true →
      ∃ k, ∃ hk : k < l.length, k ≤ i ∧ l.find? p = some (l.get ⟨k, hk⟩) ∧
        p (l.get ⟨k, hk⟩) = true ∧
        ∀ j (hj : j < k), p (l.get ⟨j, Nat.lt_trans hj hk⟩) = false := by
  induction l with
  | nil => intro i hi; exact absurd hi (by simp)
  | cons a t ih =>
    intro i hi hp
    cases hpa : p a with
    | true =>
      refine ⟨0, by simp, Nat.zero_le i, ?_, by simpa using hpa, ?_⟩
      · simp [List.find?_cons_of_pos _ hpa]
      · intro j hj; omega
    | false =>
      cases i with
      | zero => simp only [List.get] at hp; rw [hp] at hpa; cases hpa
      | succ i' =>
        have hi' : i' < t.length := by simpa using hi
        have hp' : p (t.get ⟨i', hi'⟩) = true := by simpa using hp
        obtain ⟨k, hk, hki, hfind, hpk, hprev⟩ := ih i' hi' hp'
        refine ⟨k + 1, by simpa using Nat.succ_lt_succ hk, Nat.succ_le_succ hki,
          ?_, by simpa using hpk, ?_⟩
        · rw [List.find?_cons_of_neg _ (by simp [hpa])]
          simpa using hfind
        · intro j hj
          cases j with
          | zero => simpa using hpa
          | succ j' => simpa using hprev j' (Nat.lt_of_succ_lt_succ hj)

theorem rat_floor_intCast (r : Int) : ((r : ℚ)).floor = r := by
  simp [Rat.floor_def', Rat.num_intCast, Rat.den_intCast]

theorem resolveTaskSprintIndex_normalizeTask (t : Task)
    (sched : List SprintScheduleEntry) :
    resolveTaskSprintIndex (normalizeTask t sched) = max 1 (resolveTaskSprintIndex t) := by
  show max 1 (((resolveTaskSprintIndex t : Int) : ℚ)).floor = _
  rw [rat_floor_intCast]

theorem resolveWindowForTask_congr (t₁ t₂ : Task) (sched : List SprintScheduleEntry)
    (h : resolveTaskSprintIndex t₁ = resolveTaskSprintIndex t₂) :
    resolveWindowForTask t₁ sched = resolveWindowForTask t₂ sched := by
  simp [resolveWindowForTask, h]

theorem taskChanged_normalizeTask (t : Task) (sched : List SprintScheduleEntry)
    (h1 : 1 ≤ resolveTaskSprintIndex t) :
    taskChanged (normalizeTask t sched) sched = false := by
  have hres : resolveTaskSprintIndex (normalizeTask t sched) = resolveTaskSprintIndex t := by
    rw [resolveTaskSprintIndex_normalizeTask]; omega
  have hwin := resolveWindowForTask_congr (normalizeTask t sched) t sched hres
  simp only [normalizeTask] at hwin hres ⊢
  simp [taskChanged, normalizeTask, hwin, hres]

/-- Claim C1 (amended): reconciliation is idempotent for every non-empty
schedule and every task collection in which each task's resolved sprint index
is at least 1 — applying `ensureSprintDates` to the output of a first
application (same schedule) reports `changed = false`.  (The unrestricted
claim fails: a task whose index is parsed from a tag like `"tag-week0"`
resolves to 0, and the second pass clamps the stored index 0 up to 1, see
the counterexample.) -/
theorem ensureSprintDates_idempotent (tasks : List Task)
    (sched : List SprintScheduleEntry) (_hs : sched ≠ [])
    (h : ∀ t ∈ tasks, 1 ≤ resolveTaskSprintIndex t) :
    (ensureSprintDates (ensureSprintDates tasks sched).tasks sched).changed = false := by
  simp only [ensureSprintDates]
  rw [List.any_eq_false]
  intro x hx
  simp only [List.mem_map] at hx
  obtain ⟨t, ht, rfl⟩ := hx
  simp [taskChanged_normalizeTask t sched (h t ht)]

/-- Claim C1, counterexample: with the one-entry schedule anchored at the
epoch and the single task tagged `"tag-week0"`, the second application of
`ensureSprintDates` still reports `changed = true` (the stored sprint index
0 is clamped to 1 on the second pass), refuting idempotence as stated. -/
theorem ensureSprintDates_not_idempotent :
    (ensureSprintDates
      (ensureSprintDates [weekZeroTask] (buildSprintSchedule 0 1)).tasks
      (buildSprintSchedule 0 1)).changed = true := by decide

/-- Witness for the amended C1 at a concrete input: one task tagged
`"tag-week3"` against the two-sprint schedule anchored at the epoch. -/
theorem ensureSprintDates_idempotent_witness :
    (ensureSprintDates
      (ensureSprintDates [weekThreeTask] (buildSprintSchedule 0 2)).tasks
      (buildSprintSchedule 0 2)).changed = false :=
  ensureSprintDates_idempotent _ _ (by decide) (by decide)

/-- Claim C2: after `ensureSprintDates`, every output task's `dueDate` is the
`end` of the schedule entry whose `index` equals the task's resolved sprint
index — the first such entry in schedule order, falling back to the last
entry when no entry carries that index — and `overflowDate` is likewise that
entry's `overflowEnd`.  The resolved sprint index is the one computed for the
incoming task, which is also the `sprintIndex` stored on the output task. -/
theorem ensureSprintDates_round_trip (tasks : List Task)
    (sched : List SprintScheduleEntry) (hs : sched ≠ []) (i : Nat)
    (hi : i < tasks.length) :
    ∃ h2 : i < (ensureSprintDates tasks sched).tasks.length,
      ((ensureSprintDates tasks sched).tasks.get ⟨i, h2⟩).dueDate =
        some (((sched.find? fun e =>
            decide (e.index = resolveTaskSprintIndex (tasks.get ⟨i, hi⟩))).getD
          (sched.getLast hs)).«end») ∧
      ((ensureSprintDates tasks sched).tasks.get ⟨i, h2⟩).overflowDate =
        some (((sched.find? fun e =>
            decide (e.index = resolveTaskSprintIndex (tasks.get ⟨i, hi⟩))).getD
          (sched.getLast hs)).overflowEnd) := by
  have h2 : i < (ensureSprintDates tasks sched).tasks.length := by
    simpa [ensureSprintDates] using hi
  refine ⟨h2, ?_, ?_⟩ <;>
  · simp only [ensureSprintDates, List.get_eq_getElem, List.getElem_map]
    simp [normalizeTask, resolveWindowForTask, getLastD_eq_getLast _ hs,
      List.getLast?_eq_getLast _ hs]

/-- Witness for C2 at a concrete input: the task tagged `"tag-week3"` against
the four-sprint schedule anchored at the epoch. -/
theorem ensureSprintDates_round_trip_witness :
    ∃ h2 : 0 < (ensureSprintDates [weekThreeTask] (buildSprintSchedule 0 4)).tasks.length,
      ((ensureSprintDates [weekThreeTask] (buildSprintSchedule 0 4)).tasks.get
          ⟨0, h2⟩).dueDate =
        some ((((buildSprintSchedule 0 4).find? fun e =>
            decide (e.index =
              resolveTaskSprintIndex ([weekThreeTask].get ⟨0, by decide⟩))).getD
          ((buildSprintSchedule 0 4).getLast (by decide))).«end») ∧
      ((ensureSprintDates [weekThreeTask] (buildSprintSchedule 0 4)).tasks.get
          ⟨0, h2⟩).overflowDate =
        some ((((buildSprintSchedule 0 4).find? fun e =>
            decide (e.index =
              resolveTaskSprintIndex ([weekThreeTask].get ⟨0, by decide⟩))).getD
          ((buildSprintSchedule 0 4).getLast (by decide))).overflowEnd) :=
  ensureSprintDates_round_trip [weekThreeTask] (buildSprintSchedule 0 4)
    (by decide) 0 (by decide)

/-- Claim C3 (amended): `resolveTaskSprintIndex` is total and always returns a
non-negative integer.  The stated lower bound of 1 does not always hold: a
tag whose digit part parses to 0 (such as `"tag-week0"`) is returned
unclamped, see the counterexample. -/
theorem resolveTaskSprintIndex_nonneg (task : Task) :
    0 ≤ resolveTaskSprintIndex task := by
  unfold resolveTaskSprintIndex
  split
  · exact le_trans zero_le_one (le_max_left _ _)
  · split
    · split
      · exact Int.natCast_nonneg _
      · exact zero_le_one
    · exact zero_le_one

/-- Claim C3, counterexample: the task whose only tag is `"tag-week0"`
resolves to sprint index 0, so the result is not always ≥ 1. -/
theorem resolveTaskSprintIndex_zero :
    resolveTaskSprintIndex weekZeroTask = 0 ∧
      ¬ (1 ≤ resolveTaskSprintIndex weekZeroTask) := by decide

/-- Witness for the amended C3 at a concrete input. -/
theorem resolveTaskSprintIndex_nonneg_witness :
    0 ≤ resolveTaskSprintIndex weekZeroTask :=
  resolveTaskSprintIndex_nonneg weekZeroTask

/-- Claim C4 (amended): the tag pattern requires the literal prefix
`"tag-week"` before the digits (case-insensitive), and with several matching
tags the first one in tag order wins: for every task with no valid numeric
`sprintIndex` whose first matching tag captures digit run `ds`, the resolver
returns `parseInt ds`; in particular a task whose only tag is `"tag-week3"`
resolves to 3.  (A tag matching just `"week" + digits`, like `"week3"`, is
not recognized — see the counterexample.) -/
theorem resolveTaskSprintIndex_tag_fallback :
    (∀ (task : Task) (tg : String) (ds : List Char),
      (task.sprintIndex = none ∨ task.sprintIndex = some JsNumber.nan) →
      task.tags.find? (fun tag => (findTagWeek tag.data).isSome) = some tg →
      findTagWeek tg.data = some ds →
      resolveTaskSprintIndex task = (parseDigits ds : Int)) ∧
    resolveTaskSprintIndex weekThreeTask = 3 := by
  constructor
  · intro task tg ds hsi hft hfw
    unfold resolveTaskSprintIndex
    rcases hsi with h | h <;> rw [h] <;> simp [hft, hfw]
  · decide

/-- Claim C4, counterexample: the tag `"week3"` matches the claimed pattern
`week` + digits, but the code's `/tag-week\d+/i` does not match it, so the
task resolves to the default 1, not 3. -/
theorem resolveTaskSprintIndex_bare_week :
    resolveTaskSprintIndex bareWeekTask = 1 ∧
      resolveTaskSprintIndex bareWeekTask ≠ 3 := by decide

/-- Witness for the amended C4 at a concrete input: the first tag does not
match, the second matches case-insensitively mid-string and captures `"12"`. -/
theorem resolveTaskSprintIndex_tag_fallback_witness :
    resolveTaskSprintIndex weekTwelveTask = 12 := by
  have h := resolveTaskSprintIndex_tag_fallback
  rw [h.1 weekTwelveTask "xTAG-Week12y" ['1', '2'] (Or.inl rfl) (by decide) (by decide)]
  decide

/-- Claim C5: for every reference date and count `N ≥ 1`, the schedule has
exactly `N` entries indexed `1..N`; each entry satisfies
`start ≤ end < overflowEnd`, its `end` lies 6 days after `start` at the
23:59:59.999 millisecond boundary of that day (so `end − start` is exactly
`6 days + (1 day − 1 ms)`, and `end` is a fixed point of the end-of-day
normalization), `overflowEnd − end` is exactly 7 days, and each successive
entry starts exactly 7 days after the previous one. -/
theorem buildSprintSchedule_shape (D N : Int) (hN : 1 ≤ N) :
    ((buildSprintSchedule D N).length : Int) = N ∧
    (∀ i (h : i < (buildSprintSchedule D N).length),
      ((buildSprintSchedule D N).get ⟨i, h⟩).index = (i : Int) + 1 ∧
      ((buildSprintSchedule D N).get ⟨i, h⟩).start ≤
        ((buildSprintSchedule D N).get ⟨i, h⟩).«end» ∧
      ((buildSprintSchedule D N).get ⟨i, h⟩).«end» <
        ((buildSprintSchedule D N).get ⟨i, h⟩).overflowEnd ∧
      ((buildSprintSchedule D N).get ⟨i, h⟩).«end» -
          ((buildSprintSchedule D N).get ⟨i, h⟩).start
        = 6 * DAY_IN_MS + (DAY_IN_MS - 1) ∧
      ((buildSprintSchedule D N).get ⟨i, h⟩).«end»
        = setEndOfDay (((buildSprintSchedule D N).get ⟨i, h⟩).«end») ∧
      ((buildSprintSchedule D N).get ⟨i, h⟩).overflowEnd -
          ((buildSprintSchedule D N).get ⟨i, h⟩).«end» = WEEK_IN_MS) ∧
    (∀ i (h : i + 1 < (buildSprintSchedule D N).length),
      ((buildSprintSchedule D N).get ⟨i + 1, h⟩).start
        = ((buildSprintSchedule D N).get ⟨i, Nat.lt_of_succ_lt h⟩).start
            + WEEK_IN_MS) := by
  have hmod := startOfCurrentSprint_mod D
  refine ⟨?_, ?_, ?_⟩
  · rw [buildSprintSchedule_length]
    exact_mod_cast Int.toNat_of_nonneg (by omega)
  · intro i h
    rw [buildSprintSchedule_get]
    dsimp only
    simp only [setEndOfDay, startOfDay, DAY_IN_MS_eq, WEEK_IN_MS_eq] at hmod ⊢
    exact ⟨trivial, by omega, by omega, by omega, by omega, by omega⟩
  · intro i h
    rw [buildSprintSchedule_get, buildSprintSchedule_get]
    dsimp only
    simp only [WEEK_IN_MS_eq]
    push_cast
    ring

/-- Witness for C5 at a concrete input: the two-sprint schedule anchored at
the epoch. -/
theorem buildSprintSchedule_shape_witness :
    ((buildSprintSchedule 0 2).length : Int) = 2 ∧
    ((buildSprintSchedule 0 2).get ⟨0, by decide⟩).«end» -
        ((buildSprintSchedule 0 2).get ⟨0, by decide⟩).start
      = 6 * DAY_IN_MS + (DAY_IN_MS - 1) :=
  ⟨(buildSprintSchedule_shape 0 2 (by decide)).1,
   ((buildSprintSchedule_shape 0 2 (by decide)).2.1 0 (by decide)).2.2.2.1⟩

theorem startOfCurrentSprint_most_recent (D m : Int) (hm1 : getDay m = 1)
    (hm2 : m % DAY_IN_MS = 0) (hm3 : m ≤ D) : m ≤ startOfCurrentSprint D := by
  simp only [startOfCurrentSprint, startOfDay, getDay, DAY_IN_MS_eq] at *
  omega

/-- Claim C6: the first entry of `buildSprintSchedule` with the default count
of 4 starts at `startOfCurrentSprint D` — a Monday (`getDay = 1`, weekday 0
being Sunday) at local midnight (a multiple of a day in the DST-free local
clock), and it is the most recent such week boundary at or before `D`: it is
`≤ D`, within a week of `D`, and no Monday midnight `m ≤ D` lies after it. -/
theorem startOfCurrentSprint_monday (D : Int)
    (h4 : 0 < (buildSprintSchedule D 4).length) :
    ((buildSprintSchedule D 4).get ⟨0, h4⟩).start = startOfCurrentSprint D ∧
    getDay (((buildSprintSchedule D 4).get ⟨0, h4⟩).start) = 1 ∧
    ((buildSprintSchedule D 4).get ⟨0, h4⟩).start % DAY_IN_MS = 0 ∧
    ((buildSprintSchedule D 4).get ⟨0, h4⟩).start ≤ D ∧
    D < ((buildSprintSchedule D 4).get ⟨0, h4⟩).start + WEEK_IN_MS ∧
    ∀ m : Int, getDay m = 1 → m % DAY_IN_MS = 0 → m ≤ D →
      m ≤ ((buildSprintSchedule D 4).get ⟨0, h4⟩).start := by
  have hstart : ((buildSprintSchedule D 4).get ⟨0, h4⟩).start
      = startOfCurrentSprint D := by
    rw [buildSprintSchedule_get]
    simp
  rw [hstart]
  exact ⟨rfl, getDay_startOfCurrentSprint D, startOfCurrentSprint_mod D,
    startOfCurrentSprint_le D, lt_startOfCurrentSprint_add_week D,
    fun m => startOfCurrentSprint_most_recent D m⟩

/-- Witness for C6 at a concrete input: reference instant 10 ms past the
epoch (a Thursday); `-864000000` is an earlier Monday midnight. -/
theorem startOfCurrentSprint_monday_witness :
    getDay (((buildSprintSchedule 10 4).get ⟨0, by decide⟩).start) = 1 ∧
    (-864000000 : Int) ≤ ((buildSprintSchedule 10 4).get ⟨0, by decide⟩).start := by
  have h := startOfCurrentSprint_monday 10 (by decide)
  exact ⟨h.2.1, h.2.2.2.2.2 (-864000000) (by decide) (by decide) (by decide)⟩

/-- Claim C7: deadline-classification boundaries of `describeTaskDeadline`.
With a due date present, `now = due` (inclusive) is `ontrack` whether or not
an overflow date exists; past the due date, `now = overflow` (inclusive) is
`overflow`; one millisecond or more past the overflow date is `late`, as is
past the due date with no overflow date. -/
theorem describeTaskDeadline_boundaries (due ov now : Int) :
    (now = due →
      (describeTaskDeadline (some due) (some ov) now).status = DeadlineStatus.ontrack) ∧
    (now = due →
      (describeTaskDeadline (some due) none now).status = DeadlineStatus.ontrack) ∧
    (due < now → now = ov →
      (describeTaskDeadline (some due) (some ov) now).status = DeadlineStatus.overflow) ∧
    (due < now → ov < now →
      (describeTaskDeadline (some due) (some ov) now).status = DeadlineStatus.late) ∧
    (due < now →
      (describeTaskDeadline (some due) none now).status = DeadlineStatus.late) := by
  refine ⟨fun h => ?_, fun h => ?_, fun h1 h2 => ?_, fun h1 h2 => ?_, fun h1 => ?_⟩
  · subst h; simp [describeTaskDeadline]
  · subst h; simp [describeTaskDeadline]
  · subst h2; simp [describeTaskDeadline, show ¬ now ≤ due by omega]
  · simp [describeTaskDeadline, show ¬ now ≤ due by omega, show ¬ now ≤ ov by omega]
  · simp [describeTaskDeadline, show ¬ now ≤ due by omega]

/-- Witness for C7 at concrete instants around a due date of 100 and an
overflow date of 200. -/
theorem describeTaskDeadline_boundaries_witness :
    (describeTaskDeadline (some 100) (some 200) 100).status = DeadlineStatus.ontrack ∧
    (describeTaskDeadline (some 100) (some 200) 200).status = DeadlineStatus.overflow ∧
    (describeTaskDeadline (some 100) (some 200) 201).status = DeadlineStatus.late ∧
    (describeTaskDeadline (some 100) none 101).status = DeadlineStatus.late := by
  have h200 := describeTaskDeadline_boundaries 100 200 200
  have h201 := describeTaskDeadline_boundaries 100 200 201
  have h101 := describeTaskDeadline_boundaries 100 0 101
  exact ⟨(describeTaskDeadline_boundaries 100 200 100).1 rfl,
    h200.2.2.1 (by decide) rfl,
    h201.2.2.2.1 (by decide) (by decide),
    h101.2.2.2.2 (by decide)⟩

/-- Claim C8: `getActiveSprint` is total.  On an empty schedule it returns
the sole entry of the one-entry schedule built at the reference instant; on a
non-empty schedule it returns an entry whose `[start, overflowEnd]` range
contains the instant whenever one exists, and the last entry when none does.
In particular, for the four-sprint schedule built from a Wednesday reference
date (`getDay D = 3`), the active sprint at the reference date itself is the
entry with index 1. -/
theorem getActiveSprint_total :
    (∀ (schedule : List SprintScheduleEntry) (ref : Int),
      (schedule = [] →
        ∃ e, buildSprintSchedule ref 1 = [e] ∧ getActiveSprint schedule ref = e) ∧
      ((∃ e ∈ schedule, e.start ≤ ref ∧ ref ≤ e.overflowEnd) →
        getActiveSprint schedule ref ∈ schedule ∧
        (getActiveSprint schedule ref).start ≤ ref ∧
        ref ≤ (getActiveSprint schedule ref).overflowEnd) ∧
      (∀ h : schedule ≠ [],
        (∀ e ∈ schedule, ¬ (e.start ≤ ref ∧ ref ≤ e.overflowEnd)) →
        getActiveSprint schedule ref = schedule.getLast h)) ∧
    (∀ D : Int, getDay D = 3 →
      (getActiveSprint (buildSprintSchedule D 4) D).index = 1) := by
  constructor
  · intro schedule ref
    refine ⟨?_, ?_, ?_⟩
    · intro hnil
      subst hnil
      have hlen : (buildSprintSchedule ref 1).length = 1 := by
        rw [buildSprintSchedule_length]; rfl
      cases hb : buildSprintSchedule ref 1 with
      | nil => rw [hb] at hlen; cases hlen
      | cons e rest =>
        cases rest with
        | nil => exact ⟨e, rfl, by rw [getActiveSprint_nil, hb]; rfl⟩
        | cons e2 rest2 => rw [hb] at hlen; simp at hlen
    · rintro ⟨e0, he0, hc1, hc2⟩
      obtain ⟨⟨i, hi⟩, hget⟩ := List.mem_iff_get.mp he0
      have hp : (fun s => decide (s.start ≤ ref ∧ ref ≤ s.overflowEnd))
          (schedule.get ⟨i, hi⟩) = true := decide_eq_true (hget ▸ ⟨hc1, hc2⟩)
      obtain ⟨k, hk, _, hfind, hpk, _⟩ := find?_first_of_get
        (fun s => decide (s.start ≤ ref ∧ ref ≤ s.overflowEnd)) schedule i hi hp
      have hne : schedule ≠ [] := List.ne_nil_of_mem he0
      rw [getActiveSprint_eq_find _ _ hne, hfind, Option.getD_some]
      exact ⟨List.get_mem _ _ _, (of_decide_eq_true hpk).1, (of_decide_eq_true hpk).2⟩
    · intro h hnone
      rw [getActiveSprint_eq_find _ _ h]
      have hfn : (schedule.find? fun s =>
          decide (s.start ≤ ref ∧ ref ≤ s.overflowEnd)) = none :=
        List.find?_eq_none.mpr fun x hx => by simpa using hnone x hx
      rw [hfn]
      rfl
  · intro D _
    have hlen4 : (buildSprintSchedule D 4).length = 4 := by
      rw [buildSprintSchedule_length]; rfl
    have h0 : 0 < (buildSprintSchedule D 4).length := by omega
    have hp : (fun s => decide (s.start ≤ D ∧ D ≤ s.overflowEnd))
        ((buildSprintSchedule D 4).get ⟨0, h0⟩) = true := by
      rw [buildSprintSchedule_get]
      dsimp only
      have h1 := startOfCurrentSprint_le D
      have h2 := lt_startOfCurrentSprint_add_week D
      simp only [DAY_IN_MS_eq, WEEK_IN_MS_eq] at h2 ⊢
      refine decide_eq_true ⟨?_, ?_⟩ <;> push_cast <;> omega
    obtain ⟨k, hk, hk0, hfind, _, _⟩ := find?_first_of_get
      (fun s => decide (s.start ≤ D ∧ D ≤ s.overflowEnd)) (buildSprintSchedule D 4) 0 h0 hp
    have hkeq : k = 0 := Nat.le_zero.mp hk0
    subst hkeq
    have hne : buildSprintSchedule D 4 ≠ [] := by
      intro hcon; rw [hcon] at h0; simp at h0
    rw [getActiveSprint_eq_find _ _ hne, hfind, Option.getD_some,
      buildSprintSchedule_get]
    dsimp only
    norm_num

/-- Witness for C8 at concrete inputs: the empty schedule at the epoch, and a
Wednesday reference date (518400000 ms = 1970-01-07). -/
theorem getActiveSprint_total_witness :
    (∃ e, buildSprintSchedule 0 1 = [e] ∧
      getActiveSprint ([] : List SprintScheduleEntry) 0 = e) ∧
    (getActiveSprint (buildSprintSchedule 518400000 4) 518400000).index = 1 := by
  have h := getActiveSprint_total
  exact ⟨(h.1 [] 0).1 rfl, h.2 518400000 (by decide)⟩

/-- Claim C9: `buildSprintSchedule` performs no clamping of the requested
count — any `totalSprints ≤ 0` yields the empty schedule
(`Array.from \x7b length: n \x7d` with a non-positive length gives `[]`). -/
theorem buildSprintSchedule_nonpos (D N : Int) (h : N ≤ 0) :
    buildSprintSchedule D N = [] := by
  unfold buildSprintSchedule
  rw [Int.toNat_of_nonpos h]
  rfl

/-- Witness for C9 at a concrete input. -/
theorem buildSprintSchedule_nonpos_witness : buildSprintSchedule 0 (-5) = [] :=
  buildSprintSchedule_nonpos 0 (-5) (by decide)

/-- Claim C10: `getActiveSprint` returns the earliest matching entry in
schedule order.  Whenever the entry at position `i` contains the reference
instant, the returned entry sits at some position `k ≤ i`, contains the
instant, and no entry before position `k` does.  Concretely, for every
reference date `D` the two-sprint schedule has the instant
`startOfCurrentSprint D + 8 days` inside both consecutive entries (sprint 1's
overflow week overlaps sprint 2's nominal week), and the sprint with the
lower index — index 1 — is returned. -/
theorem getActiveSprint_first_match :
    (∀ (sched : List SprintScheduleEntry) (ref : Int) (i : Nat)
        (hi : i < sched.length),
      (sched.get ⟨i, hi⟩).start ≤ ref → ref ≤ (sched.get ⟨i, hi⟩).overflowEnd →
      ∃ k, ∃ hk : k < sched.length, k ≤ i ∧
        getActiveSprint sched ref = sched.get ⟨k, hk⟩ ∧
        (sched.get ⟨k, hk⟩).start ≤ ref ∧ ref ≤ (sched.get ⟨k, hk⟩).overflowEnd ∧
        ∀ j (hj : j < k),
          ¬ ((sched.get ⟨j, Nat.lt_trans hj hk⟩).start ≤ ref ∧
             ref ≤ (sched.get ⟨j, Nat.lt_trans hj hk⟩).overflowEnd)) ∧
    (∀ D : Int,
      ∃ e1 e2, buildSprintSchedule D 2 = [e1, e2] ∧
        e1.index = 1 ∧ e2.index = 2 ∧
        (e1.start ≤ startOfCurrentSprint D + 8 * DAY_IN_MS ∧
          startOfCurrentSprint D + 8 * DAY_IN_MS ≤ e1.overflowEnd) ∧
        (e2.start ≤ startOfCurrentSprint D + 8 * DAY_IN_MS ∧
          startOfCurrentSprint D + 8 * DAY_IN_MS ≤ e2.overflowEnd) ∧
        getActiveSprint (buildSprintSchedule D 2)
          (startOfCurrentSprint D + 8 * DAY_IN_MS) = e1) := by
  constructor
  · intro sched ref i hi h1 h2
    have hp : (fun s => decide (s.start ≤ ref ∧ ref ≤ s.overflowEnd))
        (sched.get ⟨i, hi⟩) = true := decide_eq_true ⟨h1, h2⟩
    obtain ⟨k, hk, hki, hfind, hpk, hprev⟩ := find?_first_of_get
      (fun s => decide (s.start ≤ ref ∧ ref ≤ s.overflowEnd)) sched i hi hp
    have hne : sched ≠ [] := by
      intro hcon; subst hcon; exact absurd hi (by simp)
    refine ⟨k, hk, hki, ?_, (of_decide_eq_true hpk).1, (of_decide_eq_true hpk).2,
      fun j hj => of_decide_eq_false (hprev j hj)⟩
    rw [getActiveSprint_eq_find _ _ hne, hfind, Option.getD_some]
  · intro D
    have hlen : (buildSprintSchedule D 2).length = 2 := by
      rw [buildSprintSchedule_length]; rfl
    cases hb : buildSprintSchedule D 2 with
    | nil => rw [hb] at hlen; cases hlen
    | cons a t =>
      cases t with
      | nil => rw [hb] at hlen; simp at hlen
      | cons b t2 =>
        cases t2 with
        | cons c t3 => rw [hb] at hlen; simp at hlen
        | nil =>
          have h0 : 0 < (buildSprintSchedule D 2).length := by omega
          have h1 : 1 < (buildSprintSchedule D 2).length := by omega
          have ha : (buildSprintSchedule D 2).get ⟨0, h0⟩ = a := by simp [hb]
          have hbb : (buildSprintSchedule D 2).get ⟨1, h1⟩ = b := by simp [hb]
          rw [buildSprintSchedule_get] at ha hbb
          have hca : a.start ≤ startOfCurrentSprint D + 8 * DAY_IN_MS ∧
              startOfCurrentSprint D + 8 * DAY_IN_MS ≤ a.overflowEnd := by
            rw [← ha]
            dsimp only
            simp only [DAY_IN_MS_eq, WEEK_IN_MS_eq]
            constructor <;> push_cast <;> omega
          have hcb : b.start ≤ startOfCurrentSprint D + 8 * DAY_IN_MS ∧
              startOfCurrentSprint D + 8 * DAY_IN_MS ≤ b.overflowEnd := by
            rw [← hbb]
            dsimp only
            simp only [DAY_IN_MS_eq, WEEK_IN_MS_eq]
            constructor <;> push_cast <;> omega
          refine ⟨a, b, rfl, ?_, ?_, hca, hcb, ?_⟩
          · rw [← ha]; norm_num
          · rw [← hbb]; norm_num
          · rw [getActiveSprint_eq_find _ _ (List.cons_ne_nil a [b])]
            simp [List.find?, decide_eq_true hca]

/-- Witness for C10 at a concrete input: the two-sprint schedule anchored at
the epoch, probed 8 days into it. -/
theorem getActiveSprint_first_match_witness :
    (getActiveSprint (buildSprintSchedule 0 2)
      (startOfCurrentSprint 0 + 8 * DAY_IN_MS)).index = 1 := by
  obtain ⟨e1, e2, _, hidx, _, _, _, hact⟩ := getActiveSprint_first_match.2 0
  rw [hact, hidx]

end ThesisTracker
